import Mathlib

/-!
Verification development for the bounded-memory log-processing pipeline
repository.  The concrete log-line generator (`generateLogLine`,
`LogGenerator`) is embedded from the code in the repository's README;
the pipeline stages (Filter, Formatter, Batcher, Rate Governor,
Progress Tracker, Flow Controller, Orchestrator) are only declared as
TODO templates in CHALLENGE.md, so they are modelled from the design
specification, as marked on each definition.
-/

/- ------------------------------------------------------------------ -/
/- Log line generation (embedded from the README code)                 -/
/- ------------------------------------------------------------------ -/

/-- A calendar timestamp, the component fields that
`new Date().toISOString()` renders.  The JS code slices the ISO string
to 19 characters: `YYYY-MM-DD HH:MM:SS` after replacing T by a space. -/
structure Timestamp where
  year : Nat
  month : Nat
  day : Nat
  hour : Nat
  minute : Nat
  second : Nat
deriving DecidableEq, Repr

/-- Two-digit zero-padded decimal rendering of a field, as
`toISOString` prints month, day, hour, minute and second. -/
def pad2 (n : Nat) : List Char :=
  [Nat.digitChar (n / 10 % 10), Nat.digitChar (n % 10)]

/-- Four-digit zero-padded decimal rendering of the year field. -/
def pad4 (n : Nat) : List Char :=
  [Nat.digitChar (n / 1000 % 10), Nat.digitChar (n / 100 % 10),
   Nat.digitChar (n / 10 % 10), Nat.digitChar (n % 10)]

/-- `new Date().toISOString().replace('T', ' ').slice(0, 19)` from
`generateLogLine`: the 19-character `YYYY-MM-DD HH:MM:SS` rendering. -/
def isoTimestamp (t : Timestamp) : List Char :=
  pad4 t.year ++ '-' :: pad2 t.month ++ '-' :: pad2 t.day ++
    ' ' :: pad2 t.hour ++ ':' :: pad2 t.minute ++ ':' :: pad2 t.second

/-- `LOG_LEVELS` from the README. -/
def LOG_LEVELS : List String := ["INFO", "WARN", "ERROR", "DEBUG"]

/-- `MESSAGES` from the README: the candidate messages per level. -/
def MESSAGES (level : String) : List String :=
  if level = "INFO" then
    ["Server started", "User logged in", "Request received", "Cache hit",
     "Connection established"]
  else if level = "WARN" then
    ["Slow response", "High memory usage", "Retry attempt",
     "Rate limit near", "Disk space low"]
  else if level = "ERROR" then
    ["Database connection failed", "Timeout exceeded", "File not found",
     "Auth failed", "Null pointer"]
  else if level = "DEBUG" then
    ["Processing request", "Cache miss", "Query executed",
     "Session created", "Event emitted"]
  else []

/-- `randomFrom(arr)` = `arr[Math.floor(Math.random() * arr.length)]`.
The random draw is modelled by the parameter `r`; since
`Math.floor(Math.random() * arr.length)` is always < `arr.length`,
every reachable index is of the form `r % arr.length`. -/
def randomFrom (arr : List String) (r : Nat) : String :=
  arr.getD (r % arr.length) ""

/-- `generateLogLine` from the README: builds
an interpolation of `now`, `level` and `message` with a trailing
newline.  The two random draws are the parameters `rLevel`
and `rMsg`. -/
def generateLogLine (t : Timestamp) (rLevel rMsg : Nat) : List Char :=
  let level := randomFrom LOG_LEVELS rLevel
  let message := randomFrom (MESSAGES level) rMsg
  '[' :: isoTimestamp t ++ ']' :: ' ' :: '[' :: level.data ++
    ']' :: ' ' :: message.data ++ ['\n']

/- ------------------------------------------------------------------ -/
/- The input-record grammar of the specification                       -/
/- ------------------------------------------------------------------ -/

/-- Decimal digit test on characters. -/
def isDigitCh (c : Char) : Bool := decide ('0' ≤ c) && decide (c ≤ '9')

/-- A token of a fixed-shape pattern: a decimal digit or a literal. -/
inductive Tok where
  | digit : Tok
  | lit : Char → Tok
deriving DecidableEq, Repr

/-- Match a character list against a fixed-shape token pattern. -/
def matchToks : List Tok → List Char → Bool
  | [], [] => true
  | Tok.digit :: ts, c :: cs => isDigitCh c && matchToks ts cs
  | Tok.lit a :: ts, c :: cs => decide (c = a) && matchToks ts cs
  | _, _ => false

/-- The `YYYY-MM-DD HH:MM:SS` shape of the timestamp field. -/
def tsShape : List Tok :=
  [Tok.digit, Tok.digit, Tok.digit, Tok.digit, Tok.lit '-',
   Tok.digit, Tok.digit, Tok.lit '-', Tok.digit, Tok.digit, Tok.lit ' ',
   Tok.digit, Tok.digit, Tok.lit ':', Tok.digit, Tok.digit, Tok.lit ':',
   Tok.digit, Tok.digit]

/-- The input record grammar of the specification:
`[YYYY-MM-DD HH:MM:SS] [LEVEL] Message` with a single terminating
newline and `LEVEL` drawn from INFO, WARN, ERROR, DEBUG. -/
def MatchesLogGrammar (l : List Char) : Prop :=
  ∃ ts lvl msg : List Char,
    l = '[' :: ts ++ ']' :: ' ' :: '[' :: lvl ++ ']' :: ' ' :: msg ++ ['\n'] ∧
    matchToks tsShape ts = true ∧
    lvl ∈ ["INFO".data, "WARN".data, "ERROR".data, "DEBUG".data] ∧
    msg ≠ [] ∧ '\n' ∉ msg

lemma isDigitCh_digitChar_mod (n : Nat) :
    isDigitCh (Nat.digitChar (n % 10)) = true := by
  have h : n % 10 < 10 := Nat.mod_lt _ (by norm_num)
  interval_cases h : n % 10 <;> decide

lemma matchToks_tsShape_iso (t : Timestamp) :
    matchToks tsShape (isoTimestamp t) = true := by
  simp [tsShape, isoTimestamp, pad4, pad2, matchToks,
    isDigitCh_digitChar_mod]

lemma randomFrom_mem (arr : List String) (r : Nat) (h : arr ≠ []) :
    randomFrom arr r ∈ arr := by
  unfold randomFrom
  have hlen : 0 < arr.length := List.length_pos.2 h
  have hlt : r % arr.length < arr.length := Nat.mod_lt _ hlen
  rw [List.getD_eq_getElem _ _ hlt]
  exact List.getElem_mem hlt

lemma levels_nonempty : LOG_LEVELS ≠ [] := by decide

lemma messages_nonempty : ∀ lvl ∈ LOG_LEVELS, MESSAGES lvl ≠ [] := by decide

lemma levels_data_mem : ∀ lvl ∈ LOG_LEVELS,
    lvl.data ∈ ["INFO".data, "WARN".data, "ERROR".data, "DEBUG".data] := by
  decide

lemma messages_clean : ∀ lvl ∈ LOG_LEVELS, ∀ msg ∈ MESSAGES lvl,
    msg.data ≠ [] ∧ '\n' ∉ msg.data := by decide

/-- C4: every log line produced by `generateLogLine`, for every random
choice of level and message and every timestamp, matches the input
record grammar `[YYYY-MM-DD HH:MM:SS] [LEVEL] Message` with a single
terminating newline and a level drawn from INFO, WARN, ERROR, DEBUG. -/
theorem generateLogLine_matches_grammar (t : Timestamp) (rLevel rMsg : Nat) :
    MatchesLogGrammar (generateLogLine t rLevel rMsg) := by
  have hlvl : randomFrom LOG_LEVELS rLevel ∈ LOG_LEVELS :=
    randomFrom_mem _ _ levels_nonempty
  have hmsg :
      randomFrom (MESSAGES (randomFrom LOG_LEVELS rLevel)) rMsg ∈
        MESSAGES (randomFrom LOG_LEVELS rLevel) :=
    randomFrom_mem _ _ (messages_nonempty _ hlvl)
  refine ⟨isoTimestamp t, (randomFrom LOG_LEVELS rLevel).data,
    (randomFrom (MESSAGES (randomFrom LOG_LEVELS rLevel)) rMsg).data,
    rfl, matchToks_tsShape_iso t, levels_data_mem _ hlvl,
    (messages_clean _ hlvl _ hmsg).1, (messages_clean _ hlvl _ hmsg).2⟩

/- ------------------------------------------------------------------ -/
/- LogGenerator readable stream (embedded from the README code)        -/
/- ------------------------------------------------------------------ -/

/-- The mutable state of the `LogGenerator` readable stream from the
README: the target `totalLines` and the `currentLine` counter of lines
pushed so far. -/
structure LogGenerator where
  totalLines : Nat
  currentLine : Nat
deriving DecidableEq, Repr

/-- One push performed on the stream: a data line, or the `null`
end-of-input signal. -/
inductive Push where
  | line : List Char → Push
  | eof : Push
deriving DecidableEq, Repr

/-- Whether a push carries a data line (rather than the end signal). -/
def Push.isLine : Push → Bool
  | Push.line _ => true
  | Push.eof => false

/-- One `_read()` invocation of `LogGenerator`: if `currentLine` has
reached `totalLines` it pushes `null` and returns; otherwise it pushes
one generated log line and increments `currentLine`.  The parameter
`env` supplies the timestamp and random draws of the
`generateLogLine()` call made at each line index.  Returns the updated
state and the pushes performed by this call. -/
def LogGenerator.readStep (env : Nat → Timestamp × Nat × Nat)
    (s : LogGenerator) : LogGenerator × List Push :=
  if s.totalLines ≤ s.currentLine then (s, [Push.eof])
  else
    let e := env s.currentLine
    ({ s with currentLine := s.currentLine + 1 },
     [Push.line (generateLogLine e.1 e.2.1 e.2.2)])

/-- Drive the stream as Node does: invoke `_read` repeatedly,
collecting every push, until the stream pushes `null`. -/
def LogGenerator.drive (env : Nat → Timestamp × Nat × Nat)
    (s : LogGenerator) : List Push :=
  if s.totalLines ≤ s.currentLine then [Push.eof]
  else
    let e := env s.currentLine
    Push.line (generateLogLine e.1 e.2.1 e.2.2) ::
      LogGenerator.drive env { s with currentLine := s.currentLine + 1 }
termination_by s.totalLines - s.currentLine
decreasing_by simp_wf; omega

lemma LogGenerator.drive_eq (env : Nat → Timestamp × Nat × Nat)
    (s : LogGenerator) :
    LogGenerator.drive env s =
      (List.range' s.currentLine (s.totalLines - s.currentLine)).map
        (fun i => Push.line
          (generateLogLine (env i).1 (env i).2.1 (env i).2.2)) ++
        [Push.eof] := by
  by_cases h : s.totalLines ≤ s.currentLine
  · rw [LogGenerator.drive]
    simp [h, Nat.sub_eq_zero_of_le h]
  · rw [LogGenerator.drive]
    simp only [h, if_false]
    have hs : s.totalLines - s.currentLine =
        (s.totalLines - (s.currentLine + 1)) + 1 := by omega
    rw [LogGenerator.drive_eq env { s with currentLine := s.currentLine + 1 }]
    simp [hs, List.range'_succ]
termination_by s.totalLines - s.currentLine
decreasing_by simp_wf; omega

/-- A fixed environment of timestamp and random draws, used to
instantiate theorems at concrete inputs. -/
def envZero : Nat → Timestamp × Nat × Nat :=
  fun _ => (⟨2024, 1, 1, 10, 30, 45⟩, 0, 0)

/-- C9: starting from line 0, the `LogGenerator` stream pushes exactly
`totalLines` data lines across all `_read` invocations, then pushes the
`null` end-of-input signal exactly once, as the last push; with
`totalLines = 0` it pushes `null` immediately, having emitted nothing. -/
theorem logGenerator_pushes_exactly_totalLines
    (env : Nat → Timestamp × Nat × Nat) (T : Nat) :
    (LogGenerator.drive env ⟨T, 0⟩).countP Push.isLine = T ∧
    (LogGenerator.drive env ⟨T, 0⟩).countP
      (fun p => decide (p = Push.eof)) = 1 ∧
    (LogGenerator.drive env ⟨T, 0⟩).getLast? = some Push.eof ∧
    LogGenerator.drive env ⟨0, 0⟩ = [Push.eof] := by
  simp only [LogGenerator.drive_eq]
  refine ⟨?_, ?_, ?_, ?_⟩
  · simp [List.countP_append, List.countP_map, Function.comp_def,
      Push.isLine]
  · simp [List.countP_append, List.countP_map, Function.comp_def]
  · simp
  · simp

/-- C10: a single `_read` invocation pushes at most one data line;
when `currentLine < totalLines` it increments `currentLine` by exactly
one and otherwise leaves it unchanged, so `currentLine` never
decreases, never exceeds `totalLines`, and `totalLines` is constant. -/
theorem logGenerator_readStep_invariant
    (env : Nat → Timestamp × Nat × Nat) (s : LogGenerator)
    (h : s.currentLine ≤ s.totalLines) :
    (LogGenerator.readStep env s).2.countP Push.isLine ≤ 1 ∧
    (LogGenerator.readStep env s).1.currentLine =
      (if s.currentLine < s.totalLines then s.currentLine + 1
       else s.currentLine) ∧
    s.currentLine ≤ (LogGenerator.readStep env s).1.currentLine ∧
    (LogGenerator.readStep env s).1.currentLine ≤ s.totalLines ∧
    (LogGenerator.readStep env s).1.totalLines = s.totalLines := by
  unfold LogGenerator.readStep
  by_cases hc : s.totalLines ≤ s.currentLine
  · have hnlt : ¬ s.currentLine < s.totalLines := by omega
    simp [hc, hnlt, Push.isLine, h]
  · have hlt : s.currentLine < s.totalLines := by omega
    simp [hc, hlt, Push.isLine]
    omega

/- ------------------------------------------------------------------ -/
/- Filter and Batcher stages (modelled from the spec)                  -/
/- ------------------------------------------------------------------ -/

/-- Modelled from the spec: the Filter stage, a stateless predicate
over a Record that passes matching Records unchanged and drops
non-matching ones.  (The ErrorFilter class is only a TODO template in
CHALLENGE.md.) -/
def filterStage {α : Type} (p : α → Bool) (xs : List α) : List α :=
  xs.filter p

/-- Modelled from the spec: the Batcher stage transform loop — it
accumulates incoming Records into an internal ordered buffer and, when
the buffer length reaches `batchSize`, immediately emits the buffer as
one Batch and clears it.  (The Batcher class is only a TODO template in
CHALLENGE.md; the README sketches the same `_transform` pattern with a
fixed size of 10.)  Returns the emitted Batches in order together with
the final buffer contents. -/
def batcherProcess {α : Type} (batchSize : Nat) (buf : List α) :
    List α → List (List α) × List α
  | [] => ([], buf)
  | x :: xs =>
    let b := buf ++ [x]
    if b.length = batchSize then
      let r := batcherProcess batchSize [] xs
      (b :: r.1, r.2)
    else
      batcherProcess batchSize b xs

/-- Modelled from the spec: the Batcher flush step at end-of-input —
if the buffer is non-empty it emits exactly one final Batch, otherwise
it emits nothing. -/
def batcherFlush {α : Type} (buf : List α) : List (List α) :=
  if 0 < buf.length then [buf] else []

/-- A complete Batcher run: process the whole input starting from an
empty buffer, then flush. -/
def batcherRun {α : Type} (batchSize : Nat) (input : List α) :
    List (List α) :=
  let r := batcherProcess batchSize [] input
  r.1 ++ batcherFlush r.2

lemma batcherProcess_spec {α : Type} (n : Nat) :
    ∀ (input buf : List α),
      (∀ b ∈ (batcherProcess n buf input).1, b.length = n) ∧
      (batcherProcess n buf input).1.flatten ++
        (batcherProcess n buf input).2 = buf ++ input ∧
      (buf.length < n → (batcherProcess n buf input).2.length < n) := by
  intro input
  induction input with
  | nil =>
    intro buf
    refine ⟨by simp [batcherProcess], by simp [batcherProcess], ?_⟩
    intro hb
    simpa [batcherProcess] using hb
  | cons x xs ih =>
    intro buf
    by_cases hb : (buf ++ [x]).length = n
    · have hn : 0 < n := by
        rw [← hb]; simp
      obtain ⟨ih1, ih2, ih3⟩ := ih ([] : List α)
      refine ⟨?_, ?_, ?_⟩
      · intro b hbmem
        simp only [batcherProcess, hb, if_pos] at hbmem
        rcases List.mem_cons.1 hbmem with h1 | h1
        · rw [h1]; exact hb
        · exact ih1 b h1
      · simp only [batcherProcess, hb, if_pos, List.flatten_cons]
        have := ih2
        simp only [List.nil_append] at this
        rw [List.append_assoc, this]
        simp
      · intro _
        simp only [batcherProcess, hb, if_pos]
        exact ih3 (by simpa using hn)
    · obtain ⟨ih1, ih2, ih3⟩ := ih (buf ++ [x])
      refine ⟨?_, ?_, ?_⟩
      · intro b hbmem
        simp only [batcherProcess, hb, if_neg, not_false_iff] at hbmem
        exact ih1 b hbmem
      · simp only [batcherProcess, hb, if_neg, not_false_iff]
        rw [ih2]
        simp
      · intro hlt
        simp only [batcherProcess, hb, if_neg, not_false_iff]
        refine ih3 ?_
        have : (buf ++ [x]).length = buf.length + 1 := by simp
        omega

lemma batcherRun_flatten {α : Type} (n : Nat) (input : List α) :
    (batcherRun n input).flatten = input := by
  obtain ⟨_, h2, _⟩ := batcherProcess_spec n input ([] : List α)
  simp only [batcherRun, List.flatten_append]
  by_cases hempty : 0 < (batcherProcess n [] input).2.length
  · simp only [batcherFlush, hempty, if_pos]
    simpa using h2
  · have hnil : (batcherProcess n [] input).2 = [] := by
      simpa using List.length_eq_zero.1 (by omega)
    simp only [batcherFlush, hempty, if_neg, not_false_iff]
    simp only [hnil, List.append_nil] at h2
    simpa using h2

/-- C2: every Batch emitted by a Batcher run has size between 1 and
`batchSize`; the flush step emits exactly one final Batch when the
buffer at end-of-input is non-empty and nothing when it is empty; and
when the number of records that entered the Batcher is an exact
multiple of `batchSize`, the flush emits nothing. -/
theorem batcher_batch_sizes {α : Type} (n : Nat) (input : List α)
    (h : 0 < n) :
    (∀ b ∈ batcherRun n input, 1 ≤ b.length ∧ b.length ≤ n) ∧
    (batcherFlush (batcherProcess n [] input).2 =
      if (batcherProcess n [] input).2.length = 0 then []
      else [(batcherProcess n [] input).2]) ∧
    (input.length % n = 0 →
      batcherFlush (batcherProcess n [] input).2 = []) := by
  obtain ⟨h1, h2, h3⟩ := batcherProcess_spec n input ([] : List α)
  have hleft : (batcherProcess n [] input).2.length < n := h3 (by simpa using h)
  refine ⟨?_, ?_, ?_⟩
  · intro b hbmem
    simp only [batcherRun, List.mem_append] at hbmem
    rcases hbmem with hm | hm
    · rw [h1 b hm]; omega
    · simp only [batcherFlush] at hm
      by_cases hpos : 0 < (batcherProcess n [] input).2.length
      · simp only [hpos, if_pos, List.mem_singleton] at hm
        rw [hm]
        omega
      · simp [hpos] at hm
  · by_cases hnil : (batcherProcess n [] input).2.length = 0
    · simp [batcherFlush, hnil]
    · have hpos : 0 < (batcherProcess n [] input).2.length := by omega
      simp [batcherFlush, hpos, hnil]
  · intro hmod
    have hlenflat : (batcherProcess n [] input).1.flatten.length =
        n * (batcherProcess n [] input).1.length := by
      rw [List.length_flatten]
      rw [List.sum_eq_card_nsmul ((batcherProcess n [] input).1.map List.length) n]
      · simp [Nat.mul_comm]
      · intro x hx
        obtain ⟨b, hbmem, hbeq⟩ := List.mem_map.1 hx
        rw [← hbeq]
        exact h1 b hbmem
    have hlen : input.length =
        n * (batcherProcess n [] input).1.length +
          (batcherProcess n [] input).2.length := by
      have := congrArg List.length h2
      simpa [hlenflat] using this.symm
    have hzero : (batcherProcess n [] input).2.length = 0 := by
      rw [hlen, Nat.mul_add_mod] at hmod
      rwa [Nat.mod_eq_of_lt hleft] at hmod
    have hnil : (batcherProcess n [] input).2 = [] :=
      List.length_eq_zero.1 hzero
    simp [batcherFlush, hnil]

/-- Witness for C2 with `batchSize = 4` and ten input records. -/
theorem batcher_batch_sizes_witness :
    0 < 4 ∧
    ((∀ b ∈ batcherRun 4 [0, 1, 2, 3, 4, 5, 6, 7, 8, 9],
        1 ≤ b.length ∧ b.length ≤ 4) ∧
     (batcherFlush (batcherProcess 4 [] [0, 1, 2, 3, 4, 5, 6, 7, 8, 9]).2 =
       if (batcherProcess 4 [] ([0, 1, 2, 3, 4, 5, 6, 7, 8, 9] : List Nat)).2.length = 0
       then [] else [(batcherProcess 4 [] [0, 1, 2, 3, 4, 5, 6, 7, 8, 9]).2]) ∧
     (([0, 1, 2, 3, 4, 5, 6, 7, 8, 9] : List Nat).length % 4 = 0 →
       batcherFlush (batcherProcess 4 [] [0, 1, 2, 3, 4, 5, 6, 7, 8, 9]).2 = [])) :=
  ⟨by decide, batcher_batch_sizes 4 [0, 1, 2, 3, 4, 5, 6, 7, 8, 9] (by decide)⟩

/-- C3: the in-order flattening of all Batches emitted by the Batcher
equals the in-order sequence of Records that survived the Filter, and
more generally equals whatever sequence of records entered the Batcher:
nothing is dropped, nothing is duplicated, and relative order is
preserved end-to-end. -/
theorem batcher_flatten_eq_filtered {α : Type} (n : Nat) (p : α → Bool)
    (xs : List α) :
    (batcherRun n (filterStage p xs)).flatten = filterStage p xs ∧
    ∀ input : List α, (batcherRun n input).flatten = input :=
  ⟨batcherRun_flatten n (filterStage p xs), fun input => batcherRun_flatten n input⟩

/- ------------------------------------------------------------------ -/
/- Formatter stage and completion report (modelled from the spec)      -/
/- ------------------------------------------------------------------ -/

/-- Modelled from the spec: the completion report
`{itemsIn, itemsOut, malformedCount, batchesEmitted, error}` emitted
once at `Completed` or `Failed`. -/
structure Report where
  itemsIn : Nat
  itemsOut : Nat
  malformedCount : Nat
  batchesEmitted : Nat
  fatalError : Option String
deriving DecidableEq, Repr

/-- Modelled from the spec: one Formatter step over a raw line.  The
parser is abstract (`parse`): on success the structured record is
emitted; on a line that does not match the grammar the stage
increments the malformed-count counter, emits nothing, and continues.
Returns the updated counter and the emitted records. -/
def formatterStep {L R : Type} (parse : L → Option R) (malformed : Nat)
    (line : L) : Nat × List R :=
  match parse line with
  | some r => (malformed, [r])
  | none => (malformed + 1, [])

/-- Modelled from the spec: the Formatter stage run over a sequence of
lines, threading the malformed-count counter. -/
def formatterRun {L R : Type} (parse : L → Option R) (malformed : Nat) :
    List L → Nat × List R
  | [] => (malformed, [])
  | l :: ls =>
    let s := formatterStep parse malformed l
    let rest := formatterRun parse s.1 ls
    (rest.1, s.2 ++ rest.2)

/-- Modelled from the spec: the completion report of a run whose
input passes through the Formatter and then the Batcher; malformed
lines are only counted, never raised as a fatal error. -/
def formatterReport {L R : Type} (parse : L → Option R) (batchSize : Nat)
    (lines : List L) : Report :=
  let r := formatterRun parse 0 lines
  { itemsIn := lines.length
    itemsOut := r.2.length
    malformedCount := r.1
    batchesEmitted := (batcherRun batchSize r.2).length
    fatalError := none }

lemma formatterRun_spec {L R : Type} (parse : L → Option R) :
    ∀ (ls : List L) (c : Nat),
      (formatterRun parse c ls).1 =
        c + ls.countP (fun l => (parse l).isNone) ∧
      (formatterRun parse c ls).2 = ls.filterMap parse := by
  intro ls
  induction ls with
  | nil => intro c; simp [formatterRun]
  | cons l ls ih =>
    intro c
    cases hp : parse l with
    | some r =>
      have := ih c
      constructor
      · simp [formatterRun, formatterStep, hp, (ih c).1, List.countP_cons]
      · simp [formatterRun, formatterStep, hp, (ih c).2, List.filterMap_cons]
    | none =>
      constructor
      · simp [formatterRun, formatterStep, hp, (ih (c + 1)).1,
          List.countP_cons]
        omega
      · simp [formatterRun, formatterStep, hp, (ih (c + 1)).2,
          List.filterMap_cons]

/-- C5: on a line the parser rejects, the Formatter increments the
malformed counter by exactly one, emits no record for that line, and
continues with the remaining lines unchanged; the accumulated
malformed count reaches the completion report while the report carries
no fatal error. -/
theorem formatter_malformed_recoverable {L R : Type}
    (parse : L → Option R) (c : Nat) (line : L) (ls lines : List L)
    (batchSize : Nat) (h : parse line = none) :
    formatterStep parse c line = (c + 1, []) ∧
    formatterRun parse c (line :: ls) = formatterRun parse (c + 1) ls ∧
    (formatterRun parse c (line :: ls)).2 = (formatterRun parse c ls).2 ∧
    (formatterReport parse batchSize lines).fatalError = none ∧
    (formatterReport parse batchSize lines).malformedCount =
      lines.countP (fun l => (parse l).isNone) := by
  refine ⟨by simp [formatterStep, h], ?_, ?_, rfl, ?_⟩
  · simp [formatterRun, formatterStep, h]
  · rw [(formatterRun_spec parse (line :: ls) c).2,
      (formatterRun_spec parse ls c).2]
    simp [List.filterMap_cons, h]
  · show (formatterRun parse 0 lines).1 = _
    rw [(formatterRun_spec parse lines 0).1]
    omega

/-- A concrete parser on natural numbers, used to instantiate the
Formatter theorems: even inputs parse, odd inputs are malformed. -/
def parseEven : Nat → Option Nat :=
  fun k => if k % 2 = 0 then some k else none

/-- Witness for C5 at a concrete malformed line. -/
theorem formatter_malformed_recoverable_witness :
    formatterStep parseEven 0 1 = (0 + 1, []) ∧
    formatterRun parseEven 0 [1, 2, 3] = formatterRun parseEven (0 + 1) [2, 3] ∧
    (formatterRun parseEven 0 [1, 2, 3]).2 = (formatterRun parseEven 0 [2, 3]).2 ∧
    (formatterReport parseEven 2 [1, 2, 3, 4]).fatalError = none ∧
    (formatterReport parseEven 2 [1, 2, 3, 4]).malformedCount =
      ([1, 2, 3, 4] : List Nat).countP (fun l => (parseEven l).isNone) :=
  formatter_malformed_recoverable parseEven 0 1 [2, 3] [1, 2, 3, 4] 2 (by decide)

/- ------------------------------------------------------------------ -/
/- Progress Tracker stage (modelled from the spec)                     -/
/- ------------------------------------------------------------------ -/

/-- Modelled from the spec: Progress Tracker state — the pass-through
item count and the last decile already reported. -/
structure ProgressState where
  count : Nat
  lastDecile : Nat
deriving DecidableEq, Repr

/-- Modelled from the spec: one Progress Tracker step.  It counts the
item, computes the decile `floor(count * 10 / total)` and emits a
side-channel notification `(count, decile * 10)` exactly when a new
decile is reached; with `totalExpectedItems = 0` it emits nothing
(count-only mode). -/
def progressStep (total : Nat) (s : ProgressState) :
    ProgressState × List (Nat × Nat) :=
  let c := s.count + 1
  if total = 0 then ({ count := c, lastDecile := s.lastDecile }, [])
  else
    let d := c * 10 / total
    if s.lastDecile < d then ({ count := c, lastDecile := d }, [(c, d * 10)])
    else ({ count := c, lastDecile := s.lastDecile }, [])

/-- Run the Progress Tracker over `k` tracked items, collecting the
emitted `(count, percentage)` reports in order. -/
def progressRun (total : Nat) (s : ProgressState) : Nat → List (Nat × Nat)
  | 0 => []
  | k + 1 =>
    let r := progressStep total s
    r.2 ++ progressRun total r.1 k

lemma progressRun_spec (total : Nat) :
    ∀ (k : Nat) (s : ProgressState),
      (∀ p ∈ progressRun total s k,
        p.2 = p.1 * 10 / total * 10 ∧ s.lastDecile * 10 < p.2) ∧
      List.Pairwise (fun a b : Nat × Nat => a.2 < b.2)
        (progressRun total s k) := by
  intro k
  induction k with
  | zero => intro s; simp [progressRun]
  | succ k ih =>
    intro s
    by_cases h0 : total = 0
    · have := ih { count := s.count + 1, lastDecile := s.lastDecile }
      simpa [progressRun, progressStep, h0] using this
    · by_cases hd : s.lastDecile < (s.count + 1) * 10 / total
      · obtain ⟨ih1, ih2⟩ :=
          ih { count := s.count + 1, lastDecile := (s.count + 1) * 10 / total }
        constructor
        · intro p hp
          simp only [progressRun, progressStep, h0, if_neg, hd, if_pos,
            not_false_iff, List.cons_append, List.nil_append,
            List.mem_cons] at hp
          rcases hp with hp | hp
          · constructor
            · rw [hp]
            · rw [hp]
              simp only []
              omega
          · obtain ⟨e1, e2⟩ := ih1 p hp
            refine ⟨e1, ?_⟩
            simp only [] at e2
            omega
        · simp only [progressRun, progressStep, h0, if_neg, hd, if_pos,
            not_false_iff, List.cons_append, List.nil_append]
          refine List.pairwise_cons.2 ⟨?_, ih2⟩
          intro p hp
          obtain ⟨_, e2⟩ := ih1 p hp
          simp only [] at e2 ⊢
          omega
      · have := ih { count := s.count + 1, lastDecile := s.lastDecile }
        simpa [progressRun, progressStep, h0, hd] using this

lemma progressRun_zero_total :
    ∀ (k : Nat) (s : ProgressState), progressRun 0 s k = [] := by
  intro k
  induction k with
  | zero => intro s; simp [progressRun]
  | succ k ih => intro s; simpa [progressRun, progressStep] using ih _

/-- C6: starting from a fresh tracker, every emitted report at item
count `c` carries the percentage `floor(c * 10 / total) * 10`, the
reported percentages are strictly increasing (hence no decile is ever
reported twice), with `totalExpectedItems = 0` nothing is reported,
and in the concrete run `total = 25` with 10 tracked items the reports
happen exactly at item counts 3, 5, 8 and 10. -/
theorem progressTracker_deciles (total k : Nat) :
    (∀ p ∈ progressRun total ⟨0, 0⟩ k, p.2 = p.1 * 10 / total * 10) ∧
    List.Pairwise (fun a b : Nat × Nat => a.2 < b.2)
      (progressRun total ⟨0, 0⟩ k) ∧
    progressRun 0 ⟨0, 0⟩ k = [] ∧
    progressRun 25 ⟨0, 0⟩ 10 = [(3, 10), (5, 20), (8, 30), (10, 40)] := by
  obtain ⟨h1, h2⟩ := progressRun_spec total k ⟨0, 0⟩
  exact ⟨fun p hp => (h1 p hp).1, h2, progressRun_zero_total k ⟨0, 0⟩,
    by decide⟩

/-- Witness for C6: the report at item count 3 of the `total = 25` run
carries percentage `floor(3 * 10 / 25) * 10 = 10`. -/
theorem progressTracker_deciles_witness :
    ((3, 10) : Nat × Nat) ∈ progressRun 25 ⟨0, 0⟩ 10 ∧
    (10 : Nat) = 3 * 10 / 25 * 10 :=
  ⟨by decide, (progressTracker_deciles 25 10).1 (3, 10) (by decide)⟩

/- ------------------------------------------------------------------ -/
/- Rate Governor stage (modelled from the spec)                        -/
/- ------------------------------------------------------------------ -/

/-- Modelled from the spec: Rate Governor state — the current
(discrete, injectable-clock) one-second window index and the tokens
remaining in it. -/
structure GovState where
  window : Nat
  tokens : Nat
deriving DecidableEq, Repr

/-- Modelled from the spec: the Rate Governor pacing loop.  The token
counter starts at `itemsPerSecond` at the start of each window and
each emitted item consumes one token; when tokens reach 0 the stage
suspends until the window boundary, resets the counter and resumes.
Each item is tagged with the window in which it is emitted; no item is
ever dropped. -/
def governorRun {α : Type} (n : Nat) (s : GovState) :
    List α → List (α × Nat)
  | [] => []
  | a :: rest =>
    if s.tokens = 0 then
      (a, s.window + 1) :: governorRun n ⟨s.window + 1, n - 1⟩ rest
    else
      (a, s.window) :: governorRun n ⟨s.window, s.tokens - 1⟩ rest

lemma governorRun_fst {α : Type} (n : Nat) :
    ∀ (l : List α) (s : GovState),
      (governorRun n s l).map Prod.fst = l := by
  intro l
  induction l with
  | nil => intro s; simp [governorRun]
  | cons a rest ih =>
    intro s
    by_cases h : s.tokens = 0 <;> simp [governorRun, h, ih]

lemma governorRun_count_le {α : Type} (n : Nat) (hn : 0 < n) :
    ∀ (l : List α) (s : GovState), s.tokens ≤ n →
      (∀ w, w < s.window →
        ((governorRun n s l).map Prod.snd).count w = 0) ∧
      ((governorRun n s l).map Prod.snd).count s.window ≤ s.tokens ∧
      (∀ w, s.window < w →
        ((governorRun n s l).map Prod.snd).count w ≤ n) := by
  intro l
  induction l with
  | nil =>
    intro s _
    refine ⟨fun w _ => by simp [governorRun], by simp [governorRun], ?_⟩
    intro w _
    simp [governorRun]
  | cons a rest ih =>
    intro s hs
    by_cases h : s.tokens = 0
    · obtain ⟨ih1, ih2, ih3⟩ := ih ⟨s.window + 1, n - 1⟩ (Nat.sub_le n 1)
      simp only [governorRun, h, if_pos, List.map_cons, List.count_cons,
        beq_iff_eq]
      simp only [] at ih1 ih2 ih3
      refine ⟨?_, ?_, ?_⟩
      · intro w hw
        have e1 := ih1 w (by omega)
        split_ifs <;> omega
      · have e1 := ih1 s.window (by omega)
        split_ifs <;> omega
      · intro w hw
        by_cases hw1 : w = s.window + 1
        · subst hw1
          split_ifs <;> omega
        · have e3 := ih3 w (by omega)
          split_ifs <;> omega
    · obtain ⟨ih1, ih2, ih3⟩ :=
        ih ⟨s.window, s.tokens - 1⟩ (Nat.le_trans (Nat.sub_le s.tokens 1) hs)
      simp only [governorRun, h, if_neg, not_false_iff, List.map_cons,
        List.count_cons, beq_iff_eq]
      simp only [] at ih1 ih2 ih3
      refine ⟨?_, ?_, ?_⟩
      · intro w hw
        have e1 := ih1 w hw
        split_ifs <;> omega
      · split_ifs <;> omega
      · intro w hw
        have e3 := ih3 w hw
        split_ifs <;> omega

lemma sum_ite_hit : ∀ (W t m : Nat),
    (∑ j ∈ Finset.range W, if m = t + j then 1 else 0) =
      if t ≤ m ∧ m < t + W then 1 else 0 := by
  intro W
  induction W with
  | zero =>
    intro t m
    rw [Finset.range_zero, Finset.sum_empty]
    have hno : ¬ (t ≤ m ∧ m < t) := by omega
    simp [hno]
  | succ W ih =>
    intro t m
    rw [Finset.sum_range_succ, ih]
    split_ifs <;> omega

lemma countP_window {α : Type} :
    ∀ (l : List (α × Nat)) (t W : Nat),
      l.countP (fun p => decide (t ≤ p.2) && decide (p.2 < t + W)) =
        ∑ j ∈ Finset.range W, (l.map Prod.snd).count (t + j) := by
  intro l
  induction l with
  | nil => intro t W; simp
  | cons p l ih =>
    intro t W
    simp only [List.countP_cons, List.map_cons, List.count_cons,
      beq_iff_eq, Finset.sum_add_distrib, ih, sum_ite_hit,
      Bool.and_eq_true, decide_eq_true_eq]

/-- C7: over any run of the Rate Governor with `itemsPerSecond = n`,
no item is ever dropped or reordered (the emitted items are exactly the
input items, in order), and within any sliding window of `W`
consecutive one-second windows the number of emitted items is at most
`n * W`. -/
theorem rateGovernor_bounded_rate {α : Type} (n : Nat) (items : List α)
    (t W : Nat) (h : 0 < n) :
    (governorRun n ⟨0, n⟩ items).map Prod.fst = items ∧
    (governorRun n ⟨0, n⟩ items).countP
      (fun p => decide (t ≤ p.2) && decide (p.2 < t + W)) ≤ n * W := by
  refine ⟨governorRun_fst n items ⟨0, n⟩, ?_⟩
  rw [countP_window]
  calc ∑ j ∈ Finset.range W,
        ((governorRun n ⟨0, n⟩ items).map Prod.snd).count (t + j)
      ≤ ∑ _j ∈ Finset.range W, n := by
        refine Finset.sum_le_sum ?_
        intro j _
        obtain ⟨hc1, hc2, hc3⟩ :=
          governorRun_count_le n h items ⟨0, n⟩ (le_refl n)
        rcases Nat.eq_zero_or_pos (t + j) with hz | hpos
        · rw [hz]
          exact hc2
        · exact hc3 (t + j) hpos
    _ = n * W := by
        rw [Finset.sum_const, Finset.card_range]
        ring

/-- Witness for C7 with `itemsPerSecond = 2`, three items, and the
1-window span starting at window 0. -/
theorem rateGovernor_bounded_rate_witness :
    (governorRun 2 ⟨0, 2⟩ [10, 20, 30]).map Prod.fst = [10, 20, 30] ∧
    (governorRun 2 ⟨0, 2⟩ ([10, 20, 30] : List Nat)).countP
      (fun p => decide (0 ≤ p.2) && decide (p.2 < 0 + 1)) ≤ 2 * 1 :=
  rateGovernor_bounded_rate 2 [10, 20, 30] 0 1 (by decide)

/- ------------------------------------------------------------------ -/
/- Flow Controller credit protocol (modelled from the spec)            -/
/- ------------------------------------------------------------------ -/

/-- Modelled from the spec: the Flow Controller credit protocol over a
pipeline of `n` buffered endpoints (Stage buffers and channel links).
`cap i` is the configured capacity of endpoint `i`; a state assigns
each endpoint its count of buffered-but-undelivered Records.  The
upstream side may emit into an endpoint only while its Credit (free
capacity `cap i - buf i`) is positive; consuming a buffered item
drains one slot and raises the credit again.  A transfer between
adjacent stages is a drain followed by an emit. -/
inductive FlowStep {n : Nat} (cap : Fin n → Nat) :
    (Fin n → Nat) → (Fin n → Nat) → Prop
  | emit (buf : Fin n → Nat) (i : Fin n) (h : buf i < cap i) :
      FlowStep cap buf (Function.update buf i (buf i + 1))
  | drain (buf : Fin n → Nat) (i : Fin n) (h : 0 < buf i) :
      FlowStep cap buf (Function.update buf i (buf i - 1))

/-- The pipeline starts a run with every buffer empty. -/
def emptyBuffers (n : Nat) : Fin n → Nat := fun _ => 0

lemma flowStep_preserves {n : Nat} (cap : Fin n → Nat)
    (buf buf2 : Fin n → Nat) (hinv : ∀ i, buf i ≤ cap i)
    (hstep : FlowStep cap buf buf2) : ∀ i, buf2 i ≤ cap i := by
  cases hstep with
  | emit i h =>
    intro j
    rw [Function.update_apply]
    split_ifs with hj
    · subst hj; omega
    · exact hinv j
  | drain i h =>
    intro j
    rw [Function.update_apply]
    split_ifs with hj
    · subst hj
      have := hinv j
      omega
    · exact hinv j

/-- C1: at every moment of a run — that is, after any finite sequence
of credit-respecting emit/drain steps from the initial empty state,
regardless of how many items the input ever supplies — every buffer
holds at most its configured capacity, and the total count of
buffered-but-undelivered Records summed over all Stage buffers and
channel links is at most the sum of their configured capacities. -/
theorem pipeline_buffered_le_capacities {n : Nat} (cap : Fin n → Nat)
    (buf : Fin n → Nat)
    (h : Relation.ReflTransGen (FlowStep cap) (emptyBuffers n) buf) :
    (∀ i, buf i ≤ cap i) ∧ ∑ i, buf i ≤ ∑ i, cap i := by
  have hinv : ∀ i, buf i ≤ cap i := by
    induction h with
    | refl => intro i; simp [emptyBuffers]
    | tail hab hbc ih => exact flowStep_preserves cap _ _ ih hbc
  exact ⟨hinv, Finset.sum_le_sum fun i _ => hinv i⟩

/-- Witness for C1 on a two-link pipeline with capacities 3 at the
start of a run. -/
theorem pipeline_buffered_le_capacities_witness :
    (∀ i : Fin 2, emptyBuffers 2 i ≤ (fun _ => 3) i) ∧
    ∑ i : Fin 2, emptyBuffers 2 i ≤ ∑ _i : Fin 2, 3 :=
  pipeline_buffered_le_capacities (fun _ => 3) (emptyBuffers 2)
    Relation.ReflTransGen.refl

/- ------------------------------------------------------------------ -/
/- Orchestrator error handling (modelled from the spec)                -/
/- ------------------------------------------------------------------ -/

/-- Modelled from the spec: the Orchestrator lifecycle state machine
`Idle → Running → (Draining → Completed) | (Failing → Failed) |
Cancelled`. -/
inductive OrchState where
  | idle
  | running
  | draining
  | completed
  | failing
  | failed
  | cancelled
deriving DecidableEq, Repr

/-- Modelled from the spec: `ProcessingError` is
`{kind, stageName, cause}`, created at the point of failure. -/
structure ProcessingError where
  kind : String
  stageName : String
  cause : String
deriving DecidableEq, Repr

/-- Modelled from the spec: ordered delivery of Batches to the Sink.
`accept b = none` is a successful write; `accept b = some cause` means
the Sink raised a fatal error while processing `b`.  On a fatal error
delivery stops at once — the failing batch was handed over, but no
later batch is ever delivered.  Returns the delivered batches and the
errors raised. -/
def deliverToSink {β : Type} (accept : β → Option String) :
    List β → List β × List ProcessingError
  | [] => ([], [])
  | b :: bs =>
    match accept b with
    | none =>
      let r := deliverToSink accept bs
      (b :: r.1, r.2)
    | some cause => ([b], [⟨"SinkError", "Sink", cause⟩])

/-- Modelled from the spec: error aggregation at teardown.  The first
error collected is the canonical root cause and is surfaced as the
single aggregated error while the run ends `Failed`; later errors are
recorded but not re-raised; with no errors the run completes. -/
def orchFinish :
    List ProcessingError →
      OrchState × Option ProcessingError × List ProcessingError
  | [] => (OrchState.completed, none, [])
  | e :: rest => (OrchState.failed, some e, rest)

lemma deliverToSink_fail {β : Type} (accept : β → Option String) :
    ∀ (k : Nat) (batches : List β) (bk : β) (cause : String),
      (∀ b ∈ batches.take k, accept b = none) →
      batches[k]? = some bk → accept bk = some cause →
      deliverToSink accept batches =
        (batches.take (k + 1), [⟨"SinkError", "Sink", cause⟩]) := by
  intro k
  induction k with
  | zero =>
    intro batches bk cause hok hget hfail
    cases batches with
    | nil => simp at hget
    | cons b bs =>
      have hb : b = bk := by simpa using hget
      subst hb
      simp [deliverToSink, hfail]
  | succ k ih =>
    intro batches bk cause hok hget hfail
    cases batches with
    | nil => simp at hget
    | cons b bs =>
      have hb : accept b = none := hok b (by simp [List.take_succ_cons])
      have hok2 : ∀ x ∈ bs.take k, accept x = none := by
        intro x hx
        exact hok x (by simp [List.take_succ_cons, hx])
      have hget2 : bs[k]? = some bk := by simpa using hget
      have := ih bs bk cause hok2 hget2 hfail
      simp [deliverToSink, hb, this, List.take_succ_cons]

/-- C8: if the Sink raises a fatal error while processing batch `k`
(all earlier batches having been accepted), then exactly the first
`k + 1` batches are ever delivered — no batch `k + 1` or later reaches
the Sink — the Orchestrator ends in the `failed` state surfacing
exactly one aggregated error whose stage is the Sink and whose cause
is the Sink's error; and in general the first error collected wins
while later teardown errors are recorded but not re-raised. -/
theorem orchestrator_sink_failure {β : Type} (accept : β → Option String)
    (batches : List β) (k : Nat) (bk : β) (cause : String)
    (hok : ∀ b ∈ batches.take k, accept b = none)
    (hget : batches[k]? = some bk) (hfail : accept bk = some cause) :
    (deliverToSink accept batches).1 = batches.take (k + 1) ∧
    orchFinish (deliverToSink accept batches).2 =
      (OrchState.failed, some ⟨"SinkError", "Sink", cause⟩, []) ∧
    (∀ (e : ProcessingError) (rest : List ProcessingError),
      orchFinish (e :: rest) = (OrchState.failed, some e, rest)) := by
  have hd := deliverToSink_fail accept k batches bk cause hok hget hfail
  refine ⟨by rw [hd], by rw [hd]; rfl, fun e rest => rfl⟩

/-- The concrete Sink used to instantiate the Orchestrator theorem:
it accepts every batch except the batch `2`, on which it fails. -/
def sinkBoom : Nat → Option String :=
  fun b => if b = 2 then some "boom" else none

/-- Witness for C8: the Sink fails on the second of three batches. -/
theorem orchestrator_sink_failure_witness :
    (deliverToSink sinkBoom [1, 2, 3]).1 = ([1, 2, 3] : List Nat).take (1 + 1) ∧
    orchFinish (deliverToSink sinkBoom [1, 2, 3]).2 =
      (OrchState.failed, some ⟨"SinkError", "Sink", "boom"⟩, []) ∧
    (∀ (e : ProcessingError) (rest : List ProcessingError),
      orchFinish (e :: rest) = (OrchState.failed, some e, rest)) :=
  orchestrator_sink_failure sinkBoom [1, 2, 3] 1 2 "boom"
    (by decide) (by decide) (by decide)

/-- Witness for C10 at the concrete state `⟨5, 2⟩`. -/
theorem logGenerator_readStep_invariant_witness :
    (LogGenerator.readStep envZero ⟨5, 2⟩).2.countP Push.isLine ≤ 1 ∧
    (LogGenerator.readStep envZero ⟨5, 2⟩).1.currentLine =
      (if (2 : Nat) < 5 then 2 + 1 else 2) ∧
    2 ≤ (LogGenerator.readStep envZero ⟨5, 2⟩).1.currentLine ∧
    (LogGenerator.readStep envZero ⟨5, 2⟩).1.currentLine ≤ 5 ∧
    (LogGenerator.readStep envZero ⟨5, 2⟩).1.totalLines = 5 :=
  logGenerator_readStep_invariant envZero ⟨5, 2⟩ (by decide)
